import Mathlib

/-!
# Verification of the byteparsing parser-combinator core

A shallow embedding of the parser-combinator implementation contained in the
repository's functional-parsing document (`src/unnamed/part_001`).  In that
source a parser is a function from an input string to a pair of a result and
the remaining string, and failure is signalled by raising an exception from
the `Failure` class hierarchy.  We model exceptions explicitly with an
`Except`-valued result, and model the Python class hierarchy so that the
`except Failure` clauses of the combinators can be rendered faithfully:
an exception is caught exactly when its class is a subclass of `Failure`.

Loops (`many`, `sep_by`) are `while True` loops in the source and may
genuinely diverge; they are embedded fuel-indexed, where the `running`
outcome means the loop has not exited within the given number of
iterations.  A loop exit (normal return or uncaught exception) is
independent of any sufficiently large fuel.
-/

namespace Byteparsing

/-- The Python exception classes appearing in the source: `Exception`,
`Failure(Exception)`, `EndOfInput(Failure)`, `Expected(Failure)`,
`ChoiceFailure(Expected)`, and any other exception class (not derived
from `Failure`, e.g. a built-in error), represented by its name. -/
inductive PyClass where
  | ExceptionC : PyClass
  | FailureC : PyClass
  | EndOfInputC : PyClass
  | ExpectedC : PyClass
  | ChoiceFailureC : PyClass
  | OtherC (name : String) : PyClass
deriving DecidableEq

/-- The direct superclass of each exception class, following the `class X(Y)`
declarations in the source (`Failure(Exception)`, `EndOfInput(Failure)`,
`Expected(Failure)`, `ChoiceFailure(Expected)`); classes outside the
`Failure` hierarchy derive directly from `Exception`. -/
def superclass : PyClass → Option PyClass
  | .ExceptionC => Option.none
  | .FailureC => Option.some .ExceptionC
  | .EndOfInputC => Option.some .FailureC
  | .ExpectedC => Option.some .FailureC
  | .ChoiceFailureC => Option.some .ExpectedC
  | .OtherC _ => Option.some .ExceptionC

/-- Walk at most `n` steps up the superclass chain looking for `d`. -/
def isSubclassAux : Nat → PyClass → PyClass → Bool
  | 0, _, _ => false
  | n + 1, c, d =>
    (c == d) ||
      (match superclass c with
       | Option.some p => isSubclassAux n p d
       | Option.none => false)

/-- Python's `issubclass`: reflexive-transitive closure of the superclass
relation.  The hierarchy in the source has depth at most 4, so fuel 8 is
exact. -/
def isSubclass (c d : PyClass) : Bool := isSubclassAux 8 c d

/-- Exception values raised by parsers, mirroring the constructors in the
source: `Failure(msg)`, `EndOfInput()`, `Expected(inp, msg)`,
`ChoiceFailure(inp, failures)`, plus exceptions of classes outside the
`Failure` hierarchy (class name and message). -/
inductive Exc where
  | Failure (msg : String) : Exc
  | EndOfInput : Exc
  | Expected (inp msg : String) : Exc
  | ChoiceFailure (inp : String) (failures : List Exc) : Exc
  | Other (clsName msg : String) : Exc

/-- The class of an exception value. -/
def Exc.cls : Exc → PyClass
  | .Failure _ => .FailureC
  | .EndOfInput => .EndOfInputC
  | .Expected _ _ => .ExpectedC
  | .ChoiceFailure _ _ => .ChoiceFailureC
  | .Other n _ => .OtherC n

/-- Whether an `except Failure:` clause catches exception `e`: true exactly
when `e`'s class is a subclass of `Failure`. -/
def catches (e : Exc) : Bool := isSubclass e.cls .FailureC

/-- `Parser = Callable[[str], tuple[T, str]]` from the source; "may throw an
exception instead" is modelled by the `Except Exc` result. -/
abbrev Parser (α : Type) : Type := String → Except Exc (α × String)

/-- `value(x)`: always succeeds, consumes nothing, returns `x`
(source lines 1012-1015). -/
def value (x : α) : Parser α := fun inp => .ok (x, inp)

/-- Modelled from the spec: `fail(msg)` ("always fails, raises an exception
with `msg` as text", grammar document in `src/unnamed/part_001`); the
function's code itself is not under `src`.  It raises `Failure(msg)`. -/
def fail (msg : String) : Parser α := fun _ => .error (.Failure msg)

/-- `char(allowed)` from the source: fails with `Expected` when the input is
empty or its first character is not in `allowed`; otherwise consumes and
returns that character. -/
def char (allowed : String) : Parser Char := fun inp =>
  match inp.data with
  | [] => .error (.Expected inp ("one of \"" ++ allowed ++ "\""))
  | c :: rest =>
    if allowed.data.contains c then .ok (c, String.mk rest)
    else .error (.Expected inp ("one of \"" ++ allowed ++ "\""))

/-- `optional(p)` from the source (lines 419-426): run `p`; catch a
`Failure`-hierarchy exception and return `(None, inp)` with the original
input; other exceptions propagate. -/
def optional (p : Parser α) : Parser (Option α) := fun inp =>
  match p inp with
  | .ok (x, inp') => .ok (Option.some x, inp')
  | .error e => if catches e then .ok (Option.none, inp) else .error e

/-- Modelled from the spec: the grammar document describes
`optional(p, default=None)` ("parses `p` or gives the default value"); the
library function carrying the `default` argument is not under `src`, where
only the `default=None` instance above appears as code.  On a caught
failure it returns the default and the original input. -/
def optionalDefault (p : Parser α) (default : Option α) : Parser (Option α) := fun inp =>
  match p inp with
  | .ok (x, inp') => .ok (Option.some x, inp')
  | .error e => if catches e then .ok (default, inp) else .error e

/-- Outcome of one of the source's `while True:` loops under a fuel bound:
`running` means the loop has not yet exited, `raised e` an exit through an
uncaught exception, `finished v` a normal `return v`. -/
inductive RunRes (α : Type) where
  | running : RunRes α
  | raised (e : Exc) : RunRes α
  | finished (v : α) : RunRes α

/-- The `while True` loop of `many` (source lines 749-758): try `p`; on
success append the result and continue from the new input; on a
`Failure`-hierarchy exception return the accumulated results and the input
as of the last success; other exceptions propagate. -/
def manyLoop (p : Parser α) : Nat → List α → String → RunRes (List α × String)
  | 0, _, _ => .running
  | fuel + 1, result, inp =>
    match p inp with
    | .ok (x, inp') => manyLoop p fuel (result ++ [x]) inp'
    | .error e => if catches e then .finished (result, inp) else .raised e

/-- `many(p)`: run the loop with an empty accumulator. -/
def many (p : Parser α) (fuel : Nat) : String → RunRes (List α × String) :=
  fun inp => manyLoop p fuel [] inp

/-- `some(p)` from the source (lines 767-772): run `p` once, propagating its
exception, then `many(p)` on the remainder, and cons the first result onto
the list. -/
def some (p : Parser α) (fuel : Nat) : String → RunRes (List α × String) := fun inp =>
  match p inp with
  | .error e => .raised e
  | .ok (x, inp') =>
    match manyLoop p fuel [] inp' with
    | .running => .running
    | .raised e => .raised e
    | .finished (rest, inp'') => .finished (x :: rest, inp'')

/-- The `while True` loop of the imperative `sep_by` (source lines 700-711):
`(x, inp_bc) = p(inp); result.append(x); (_, inp) = sep(inp_bc)`, looping;
a caught `Failure` returns `(result, inp_bc)`, i.e. the state as of the
last successful `p`, discarding any consumption by the failed attempt. -/
def sepByLoop (p : Parser α) (sep : Parser β) :
    Nat → List α → String → String → RunRes (List α × String)
  | 0, _, _, _ => .running
  | fuel + 1, result, inp, inp_bc =>
    match p inp with
    | .error e => if catches e then .finished (result, inp_bc) else .raised e
    | .ok (x, inp_bc') =>
      match sep inp_bc' with
      | .error e => if catches e then .finished (result ++ [x], inp_bc') else .raised e
      | .ok (_, inp') => sepByLoop p sep fuel (result ++ [x]) inp' inp_bc'

/-- `sep_by(p, sep)`: run the loop with empty accumulator, `inp_bc`
initialized to the input. -/
def sep_by (p : Parser α) (sep : Parser β) (fuel : Nat) :
    String → RunRes (List α × String) :=
  fun inp => sepByLoop p sep fuel [] inp inp

/-- The alternatives loop of `choice` (source lines 842-854): try each parser
on the same input; a caught `Failure` is appended to `failures` and the
next alternative is tried; the first success returns; when the list is
exhausted raise `ChoiceFailure(inp, failures)`. -/
def choiceGo (inp : String) : List (Parser α) → List Exc → Except Exc (α × String)
  | [], failures => .error (.ChoiceFailure inp failures)
  | p :: ps, failures =>
    match p inp with
    | .ok r => .ok r
    | .error e => if catches e then choiceGo inp ps (failures ++ [e]) else .error e

/-- `choice(*ps)` from the source: try the alternatives in order, starting
from an empty failure list. -/
def choice (ps : List (Parser α)) : Parser α := fun inp => choiceGo inp ps []

/-- Specification-side helper: prepend one caught failure to the aggregate of
a `ChoiceFailure` outcome, leaving any other outcome unchanged.  Used to
state how `choice (p :: ps)` relates to `choice ps` when `p` fails. -/
def addFailure (e : Exc) : Except Exc (α × String) → Except Exc (α × String)
  | .ok r => .ok r
  | .error (.ChoiceFailure inp fs) => .error (.ChoiceFailure inp (e :: fs))
  | .error e' => .error e'

/-- Decimal digit test, `[0-9]`. -/
def isDigit (c : Char) : Bool := '0' ≤ c && c ≤ '9'

/-- Nonzero decimal digit test, `[1-9]`. -/
def isNonzeroDigit (c : Char) : Bool := '1' ≤ c && c ≤ '9'

/-- Greedy run of decimal digits: the longest `[0-9]*` prefix and the
remainder, as matched by the regular expression engine. -/
def spanDigits : List Char → List Char × List Char
  | [] => ([], [])
  | c :: cs =>
    if isDigit c then ((c :: (spanDigits cs).1), (spanDigits cs).2)
    else ([], c :: cs)

/-- The match of the anchored regular expression `-?[1-9][0-9]*` used by the
source's `integer` (lines 269-275): an optional minus sign, one nonzero
digit, then a greedy digit run; returns the matched characters and the
rest, or `none` when there is no match at the start of the input. -/
def matchInteger : List Char → Option (List Char × List Char)
  | [] => Option.none
  | c :: cs =>
    if c = '-' then
      match cs with
      | [] => Option.none
      | d :: ds =>
        if isNonzeroDigit d then
          Option.some ('-' :: d :: (spanDigits ds).1, (spanDigits ds).2)
        else Option.none
    else
      if isNonzeroDigit c then Option.some (c :: (spanDigits cs).1, (spanDigits cs).2)
      else Option.none

/-- Numeric value of a decimal digit character. -/
def digitVal (c : Char) : Nat := c.toNat - '0'.toNat

/-- Standard base-10 value of a digit string. -/
def decimalVal (ds : List Char) : Nat :=
  ds.foldl (fun acc c => 10 * acc + digitVal c) 0

/-- Python's `int` applied to the matched token (optional leading minus
followed by digits), modelled as standard base-10 integer decoding. -/
def intVal (tok : List Char) : Int :=
  if tok.head? = Option.some '-' then -(decimalVal tok.tail : Int)
  else (decimalVal tok : Int)

/-- `integer` from the source (lines 269-275): match `-?[1-9][0-9]*` at the
start of the input; on a match return `int(m[0])` and the remainder, else
raise `Expected(inp, "a number")`. -/
def integer : Parser Int := fun inp =>
  match matchInteger inp.data with
  | Option.some (tok, rest) => .ok (intVal tok, String.mk rest)
  | Option.none => .error (.Expected inp "a number")

/-- The `Cursor` dataclass (source lines 1271-1284): a byte buffer with a
selection given by the `begin` (inclusive) and `end` (exclusive) offsets,
plus a text encoding tag. -/
structure Cursor where
  data : List Nat
  begin : Nat
  «end» : Nat
  encoding : String

/-- `Cursor.__len__`: length of the selection, `end - begin`. -/
def Cursor.len (c : Cursor) : Nat := c.«end» - c.begin

/-- `Cursor.__bool__`: `True` iff there is more input to parse, i.e.
`self.end < len(self.data)`. -/
def Cursor.toBool (c : Cursor) : Bool := decide (c.«end» < c.data.length)

set_option genSizeOfSpec false in
/-- A `Trampoline` object (source lines 1149-1154): a deferred call, i.e. a
stored function together with its arguments, modelled as a thunk whose
invocation yields either a final value (`Sum.inl`) or another deferred
call (`Sum.inr`). -/
inductive Tramp (α : Type) where
  | mk (func : Unit → α ⊕ Tramp α) : Tramp α

/-- Invoke the stored call: `cont.func(*cont.args, **cont.kwargs)`. -/
def Tramp.run : Tramp α → α ⊕ Tramp α
  | .mk f => f ()

/-- The `compute` driver loop (source lines 1155-1160) under a fuel bound:
repeatedly invoke the stored call; keep looping while the result is
another `Trampoline` descriptor; return the first non-descriptor result.
`none` means the loop has not finished within `fuel` iterations. -/
def Tramp.compute : Nat → Tramp α → Option α
  | 0, _ => Option.none
  | fuel + 1, t =>
    match t.run with
    | Sum.inl a => Option.some a
    | Sum.inr t' => Tramp.compute fuel t'

/-- The naive recursive factorial (source lines 1067-1071):
`factorial(0) = 1`, `factorial(n) = n * factorial(n-1)`. -/
def factorial : Nat → Nat
  | 0 => 1
  | n + 1 => (n + 1) * factorial n

/-- The trampolined factorial body (source lines 1162-1166 and 1222-1228):
`factorial(n, acc)` returns `acc` when `n == 0` and otherwise a deferred
call `Trampoline(factorial, n-1, acc*n)`. -/
def factorialT : Nat → Nat → Nat ⊕ Tramp Nat
  | 0, acc => Sum.inl acc
  | n + 1, acc => Sum.inr (Tramp.mk fun _ => factorialT n (acc * (n + 1)))

/-- The `@trampoline`-wrapped entry point: `factorial(n)` builds the deferred
call `Trampoline(factorial, n, 1)` whose `compute()` is then run. -/
def factorialTramp (n : Nat) : Tramp Nat := Tramp.mk fun _ => factorialT n 1

/-! ## Helper lemmas -/

/-- Every exit of the `many` loop through an exception carries an exception
outside the `Failure` hierarchy: the loop's `except Failure` clause turns
every caught failure into a normal return. -/
theorem manyLoop_raised_not_failure (p : Parser α) :
    ∀ (fuel : Nat) (acc : List α) (inp : String) (e : Exc),
      manyLoop p fuel acc inp = .raised e → catches e = false := by
  intro fuel
  induction fuel with
  | zero =>
    intro acc inp e h
    simp [manyLoop] at h
  | succ f ih =>
    intro acc inp e h
    cases hp : p inp with
    | ok r =>
      obtain ⟨x, inp'⟩ := r
      rw [manyLoop, hp] at h
      exact ih _ _ _ h
    | error e' =>
      rw [manyLoop, hp] at h
      by_cases hc : catches e'
      · simp [hc] at h
      · simp [hc] at h
        subst h
        simpa using hc

/-- Accumulated failures are prepended to the final `ChoiceFailure` and do
not affect any other outcome of the alternatives loop. -/
theorem choiceGo_cons_acc (inp : String) (e : Exc) :
    ∀ (ps : List (Parser α)) (acc : List Exc),
      choiceGo inp ps (e :: acc) = addFailure e (choiceGo inp ps acc) := by
  intro ps
  induction ps with
  | nil => intro acc; rfl
  | cons p ps ih =>
    intro acc
    rw [choiceGo, choiceGo]
    cases hp : p inp with
    | ok r => rfl
    | error e' =>
      by_cases hc : catches e'
      · simpa [hc] using ih (acc ++ [e'])
      · simp only [hc, if_false, Bool.false_eq_true]
        cases e' with
        | ChoiceFailure i fs => exact absurd rfl hc
        | Failure m => rfl
        | EndOfInput => rfl
        | Expected i m => rfl
        | Other n m => rfl

/-- When every alternative fails with a caught failure, the alternatives loop
raises `ChoiceFailure` carrying the accumulated and the new failures in
order. -/
theorem choiceGo_allfail (inp : String) :
    ∀ {ps : List (Parser α)} {es : List Exc},
      List.Forall₂ (fun p e => p inp = .error e ∧ catches e = true) ps es →
      ∀ acc : List Exc, choiceGo inp ps acc = .error (.ChoiceFailure inp (acc ++ es)) := by
  intro ps es h
  induction h with
  | nil => intro acc; simp [choiceGo]
  | cons hpe _ ih =>
    intro acc
    rw [choiceGo, hpe.1]
    simp only [hpe.2, if_true]
    rw [ih (acc ++ [_])]
    simp

/-- A digit run followed by input not starting with a digit is split exactly
at the boundary by the greedy digit scan. -/
theorem spanDigits_append :
    ∀ (ds rest : List Char), (∀ c ∈ ds, isDigit c = true) →
      (∀ c, rest.head? = Option.some c → isDigit c = false) →
      spanDigits (ds ++ rest) = (ds, rest) := by
  intro ds
  induction ds with
  | nil =>
    intro rest _ hrest
    cases rest with
    | nil => rfl
    | cons c cs => simp [spanDigits, hrest c rfl]
  | cons d ds ih =>
    intro rest hds hrest
    have hd : isDigit d = true := hds d (List.mem_cons_self d ds)
    have hrec := ih rest (fun c hc => hds c (List.mem_cons_of_mem d hc)) hrest
    simp [spanDigits, hd, hrec]

/-- Running the trampolined factorial body from `(n, acc)` with fuel greater
than `n` yields `acc * n!`. -/
theorem compute_factorialT :
    ∀ (n acc fuel : Nat), n < fuel →
      Tramp.compute fuel (Tramp.mk fun _ => factorialT n acc) =
        Option.some (acc * factorial n) := by
  intro n
  induction n with
  | zero =>
    intro acc fuel h
    obtain ⟨f, rfl⟩ : ∃ f, fuel = f + 1 := ⟨fuel - 1, by omega⟩
    simp [Tramp.compute, Tramp.run, factorialT, factorial]
  | succ m ih =>
    intro acc fuel h
    obtain ⟨f, rfl⟩ : ∃ f, fuel = f + 1 := ⟨fuel - 1, by omega⟩
    have hm : m < f := by omega
    rw [Tramp.compute]
    show Tramp.compute f (Tramp.mk fun _ => factorialT m (acc * (m + 1))) = _
    rw [ih (acc * (m + 1)) f hm, factorial]
    exact congrArg Option.some (by ring)

/-! ## Claim theorems -/

/-- C1: if `p` fails (raises a `Failure`-hierarchy exception) on an input,
then `optional(p, default)` succeeds with the default value and returns
the input exactly as it was before the attempt, with no partial
consumption visible; in particular the source's `optional` (default
`None`) returns `(None, inp)`, and `optional(fail("x"))` does so on every
input. -/
theorem optional_rollback_on_failure (p : Parser α) (default : Option α)
    (inp : String) (e : Exc)
    (hfail : p inp = .error e) (hc : catches e = true) :
    optionalDefault p default inp = .ok (default, inp) ∧
    optional p inp = .ok (Option.none, inp) ∧
    optionalDefault (fail "x") default inp = .ok (default, inp) ∧
    optional (fail "x" : Parser α) inp = .ok (Option.none, inp) := by
  refine ⟨?_, ?_, rfl, rfl⟩
  · simp [optionalDefault, hfail, hc]
  · simp [optional, hfail, hc]

/-- Witness for C1 at `p = fail "y"`, `default = some 7`, input `"abc"`. -/
theorem optional_rollback_on_failure_witness :
    optionalDefault (fail "y") (Option.some 7) "abc" = .ok (Option.some 7, "abc") ∧
    optional (fail "y" : Parser Nat) "abc" = .ok (Option.none, "abc") :=
  ⟨(optional_rollback_on_failure (fail "y") (Option.some 7) "abc" (.Failure "y") rfl rfl).1,
   (optional_rollback_on_failure (fail "y") (Option.some 7) "abc" (.Failure "y") rfl rfl).2.1⟩

/-- C2: `many(p)` never fails: every exception-exit of its loop is an
uncaught non-`Failure` exception, so no terminating run raises a
`Failure`; each successful repetition appends its result and continues
from the new input, and the first caught failure returns the accumulated
list with the input as of the last success (the failed attempt's
consumption discarded); in particular `many(fail("x"))` returns `([], inp)`
on every input, including the empty one. -/
theorem many_never_fails (p : Parser α) (inp inp' : String) (x : α)
    (acc : List α) (fuel : Nat) (e : Exc) :
    (∀ (f : Nat) (e' : Exc), manyLoop p f [] inp = .raised e' → catches e' = false) ∧
    (p inp = .ok (x, inp') →
      manyLoop p (fuel + 1) acc inp = manyLoop p fuel (acc ++ [x]) inp') ∧
    (p inp = .error e → catches e = true →
      manyLoop p (fuel + 1) acc inp = .finished (acc, inp)) ∧
    many (fail "x" : Parser α) (fuel + 1) inp = .finished ([], inp) ∧
    many (fail "x" : Parser α) (fuel + 1) "" = .finished ([], "") := by
  refine ⟨fun f e' h => manyLoop_raised_not_failure p f [] inp e' h, ?_, ?_, rfl, rfl⟩
  · intro hp
    rw [manyLoop, hp]
  · intro hp hc
    rw [manyLoop, hp]
    simp [hc]

/-- Witness for C2 at `p = char "a"` on input `"ab"`. -/
theorem many_never_fails_witness :
    manyLoop (char "a") (0 + 1) [] "ab" = manyLoop (char "a") 0 ([] ++ ['a']) "b" ∧
    manyLoop (char "a") (0 + 1) [] "b" = .finished ([], "b") ∧
    many (fail "x" : Parser Nat) (0 + 1) "ab" = .finished ([], "ab") := by
  refine ⟨?_, ?_, ?_⟩
  · exact (many_never_fails (char "a") "ab" "b" 'a' [] 0 (.Failure "")).2.1 rfl
  · exact (many_never_fails (char "a") "b" "b" 'a' [] 0
      (.Expected "b" "one of \"a\"")).2.2.1 rfl rfl
  · exact (many_never_fails (fail "x" : Parser Nat) "ab" "" 0 [] 0 (.Failure "x")).2.2.2.1

/-- C9: `many` has no zero-progress guard: for the always-succeeding,
non-consuming parser `value(x)` the loop inside `many` never exits — for
every fuel bound, every accumulator and every input it is still
`running`, so `many (value x)` has no terminating result. -/
theorem many_value_diverges (x : α) :
    ∀ (fuel : Nat) (acc : List α) (inp : String),
      manyLoop (value x) fuel acc inp = .running := by
  intro fuel
  induction fuel with
  | zero => intro acc inp; rfl
  | succ f ih =>
    intro acc inp
    rw [manyLoop]
    exact ih (acc ++ [x]) inp

/-- C3: `choice` tries the alternatives in order on the same starting input:
a successful first alternative determines the result (left bias, even when
a later alternative would succeed with a different result); a failed first
alternative leaves the remaining alternatives exactly the computation
`choice ps` sees on the same input, with the caught failure prepended to
an eventual aggregate; and when every alternative fails, `choice` fails
with a `ChoiceFailure` aggregating all sub-failures in order. -/
theorem choice_ordered_left_biased_aggregate (p₁ p₂ : Parser α)
    (ps : List (Parser α)) (inp : String) (r₁ r₂ : α × String)
    (e : Exc) (es : List Exc) :
    (p₁ inp = .ok r₁ → choice (p₁ :: ps) inp = .ok r₁) ∧
    (p₁ inp = .ok r₁ → p₂ inp = .ok r₂ → r₁ ≠ r₂ → choice [p₁, p₂] inp = .ok r₁) ∧
    (p₁ inp = .error e → catches e = true →
      choice (p₁ :: ps) inp = addFailure e (choice ps inp)) ∧
    (List.Forall₂ (fun p e' => p inp = .error e' ∧ catches e' = true) ps es →
      choice ps inp = .error (.ChoiceFailure inp es)) := by
  refine ⟨?_, ?_, ?_, ?_⟩
  · intro hp
    simp [choice, choiceGo, hp]
  · intro hp _ _
    simp [choice, choiceGo, hp]
  · intro hp hc
    show choiceGo inp (p₁ :: ps) [] = _
    rw [choiceGo, hp]
    simpa [hc] using choiceGo_cons_acc inp e ps []
  · intro hall
    simpa using choiceGo_allfail inp hall []

/-- Witness for C3: left bias between two succeeding parsers, failure
rollback to the same input, and aggregation of all failures. -/
theorem choice_ordered_left_biased_aggregate_witness :
    choice [value 1, value 2] "z" = .ok (1, "z") ∧
    choice [fail "a", value 3] "z" = addFailure (.Failure "a") (choice [value 3] "z") ∧
    choice ([fail "a", fail "b"] : List (Parser Nat)) "z" =
      .error (.ChoiceFailure "z" [.Failure "a", .Failure "b"]) := by
  refine ⟨?_, ?_, ?_⟩
  · exact (choice_ordered_left_biased_aggregate (value 1) (value 2) [value 2] "z"
      (1, "z") (2, "z") (.Failure "") []).2.1 rfl rfl (by simp)
  · exact (choice_ordered_left_biased_aggregate (fail "a") (value 3) [value 3] "z"
      (3, "z") (3, "z") (.Failure "a") []).2.2.1 rfl rfl
  · exact (choice_ordered_left_biased_aggregate (fail "a") (fail "b")
      [fail "a", fail "b"] "z" (0, "z") (0, "z") (.Failure "a")
      [.Failure "a", .Failure "b"]).2.2.2
      (List.Forall₂.cons ⟨rfl, rfl⟩ (List.Forall₂.cons ⟨rfl, rfl⟩ List.Forall₂.nil))

/-- C4: the trampoline driver `compute` invokes the stored deferred call,
continues whenever the result is another deferred-call descriptor, and
returns the first non-descriptor result; run on the trampolined factorial
it terminates (fuel `n + 1` suffices) and returns the naive recursive
factorial `n!`. -/
theorem trampoline_compute_factorial (t t' : Tramp α) (a : α) (fuel n : Nat) :
    (t.run = Sum.inl a → Tramp.compute (fuel + 1) t = Option.some a) ∧
    (t.run = Sum.inr t' → Tramp.compute (fuel + 1) t = Tramp.compute fuel t') ∧
    Tramp.compute (n + 1) (factorialTramp n) = Option.some (factorial n) := by
  refine ⟨?_, ?_, ?_⟩
  · intro h
    rw [Tramp.compute, h]
  · intro h
    rw [Tramp.compute, h]
  · have := compute_factorialT n 1 (n + 1) (Nat.lt_succ_self n)
    simpa [factorialTramp] using this

/-- Witness for C4 at `n = 10`, with the two driver-step cases exercised on
the factorial descriptors. -/
theorem trampoline_compute_factorial_witness :
    Tramp.compute 1 (Tramp.mk fun _ => factorialT 0 5) = Option.some 5 ∧
    Tramp.compute 2 (Tramp.mk fun _ => factorialT 1 5) =
      Tramp.compute 1 (Tramp.mk fun _ => factorialT 0 5) ∧
    Tramp.compute 11 (factorialTramp 10) = Option.some 3628800 := by
  refine ⟨?_, ?_, ?_⟩
  · exact (trampoline_compute_factorial (Tramp.mk fun _ => factorialT 0 5)
      (Tramp.mk fun _ => factorialT 0 5) 5 0 0).1 rfl
  · exact (trampoline_compute_factorial (Tramp.mk fun _ => factorialT 1 5)
      (Tramp.mk fun _ => factorialT 0 5) 5 1 0).2.1 rfl
  · exact (trampoline_compute_factorial (Tramp.mk fun _ => factorialT 0 1)
      (Tramp.mk fun _ => factorialT 0 1) 1 0 10).2.2

/-- C5: under the cursor invariant `begin ≤ end ≤ len(data)`, a cursor's
boolean truthiness is `end < len(data)` — true exactly when input remains
beyond the end pointer — independent of `begin`; and a cursor with
`begin = 0` and `end = len(data)` is falsy even when `begin < len(data)`. -/
theorem cursor_bool_iff_more_input (data : List Nat) (b e : Nat) (enc : String)
    (hbe : b ≤ e) (hed : e ≤ data.length) :
    ((Cursor.mk data b e enc).toBool = true ↔ e < data.length) ∧
    (∀ b', (Cursor.mk data b e enc).toBool = (Cursor.mk data b' e enc).toBool) ∧
    (0 < data.length → (Cursor.mk data 0 data.length enc).toBool = false) := by
  refine ⟨by simp [Cursor.toBool], fun b' => rfl, fun _ => by simp [Cursor.toBool]⟩

/-- Witness for C5 on a 3-byte buffer: truthy at `end = 0`, falsy at
`end = len(data) = 3` even though `begin = 0 < 3`. -/
theorem cursor_bool_iff_more_input_witness :
    ((Cursor.mk [10, 20, 30] 0 0 "utf-8").toBool = true ↔ 0 < 3) ∧
    (Cursor.mk [10, 20, 30] 0 3 "utf-8").toBool = false := by
  constructor
  · simpa using (cursor_bool_iff_more_input [10, 20, 30] 0 0 "utf-8"
      (Nat.le_refl 0) (by decide)).1
  · exact (cursor_bool_iff_more_input [10, 20, 30] 0 3 "utf-8"
      (by decide) (by decide)).2.2 (by decide)

/-- C6 counterexample: the input `"0"` starts with a decimal digit, yet the
`integer` parser of the cited source rejects it — its regular expression
`-?[1-9][0-9]*` requires a nonzero first digit — raising
`Expected("0", "a number")` instead of succeeding with value 0. -/
theorem integer_rejects_zero :
    integer "0" = .error (.Expected "0" "a number") := rfl

/-- C6 (amended): for every input consisting of an optional minus sign, a
nonzero first digit, a run of digits, and a remainder not starting with a
digit, `integer` succeeds with the standard base-10 value of the numeral
and leaves the remainder untouched; inputs whose numeral part has a
leading zero digit (with or without a minus sign) are rejected with
`Expected(inp, "a number")`. -/
theorem integer_nonzero_leading_digit (neg : Bool) (d : Char)
    (ds rest : List Char)
    (hd : isNonzeroDigit d = true)
    (hds : ∀ c ∈ ds, isDigit c = true)
    (hrest : ∀ c, rest.head? = Option.some c → isDigit c = false) :
    integer (String.mk ((if neg then ['-'] else []) ++ d :: ds ++ rest)) =
      .ok ((if neg then -(decimalVal (d :: ds) : Int) else (decimalVal (d :: ds) : Int)),
        String.mk rest) ∧
    (∀ tail : List Char, integer (String.mk ('0' :: tail)) =
      .error (.Expected (String.mk ('0' :: tail)) "a number")) ∧
    (∀ tail : List Char, integer (String.mk ('-' :: '0' :: tail)) =
      .error (.Expected (String.mk ('-' :: '0' :: tail)) "a number")) := by
  have hspan := spanDigits_append ds rest hds hrest
  have hne : ¬(d = '-') := by
    intro h
    rw [h] at hd
    exact absurd hd (by decide)
  refine ⟨?_, fun tail => rfl, fun tail => rfl⟩
  cases neg with
  | true =>
    simp only [if_true, List.cons_append, List.nil_append]
    show (match matchInteger ('-' :: d :: (ds ++ rest)) with
      | Option.some (tok, r) => Except.ok (intVal tok, String.mk r)
      | Option.none => _) = _
    rw [matchInteger]
    simp [hd, hspan, intVal, decimalVal]
  | false =>
    show (match matchInteger (d :: (ds ++ rest)) with
      | Option.some (tok, r) => Except.ok (intVal tok, String.mk r)
      | Option.none => _) = _
    rw [matchInteger.eq_def]
    simp [hne, hd, hspan, intVal, decimalVal]

/-- Witness for C6 (amended): `integer` on `"-42"` yields `-42` with nothing
left, and `"01"` is rejected. -/
theorem integer_nonzero_leading_digit_witness :
    integer (String.mk ['-', '4', '2']) = .ok (-42, String.mk []) ∧
    integer (String.mk ['0', '1']) =
      .error (.Expected (String.mk ['0', '1']) "a number") := by
  constructor
  · have h := (integer_nonzero_leading_digit true '4' ['2'] []
      (by decide) (by decide) (fun c hc => by simp at hc)).1
    simpa using h
  · exact (integer_nonzero_leading_digit true '4' ['2'] []
      (by decide) (by decide) (fun c hc => by simp at hc)).2.1 ['1']

/-- C7: `sep_by(p, sep)` stops without failing the first time `p` or the
following `sep` fails: a caught failure of `p` returns the accumulated
values with the state as of the last success (the failed attempt and the
preceding `sep`'s consumption discarded), a caught failure of `sep`
returns them with the state just after the last `p` (not consuming the
failed `sep` attempt), and a successful `sep`-then-`p` round continues;
concretely `sep_by(integer, char(";"))` on `"1;-2;3;-4"` yields
`[1, -2, 3, -4]` with the input fully consumed. -/
theorem sep_by_stops_without_failing (p : Parser α) (sep : Parser β)
    (inp inp₁ inp₂ inp_bc : String) (x : α) (y : β) (acc : List α)
    (fuel : Nat) (e : Exc) :
    (p inp = .error e → catches e = true →
      sepByLoop p sep (fuel + 1) acc inp inp_bc = .finished (acc, inp_bc)) ∧
    (p inp = .ok (x, inp₁) → sep inp₁ = .error e → catches e = true →
      sepByLoop p sep (fuel + 1) acc inp inp_bc = .finished (acc ++ [x], inp₁)) ∧
    (p inp = .ok (x, inp₁) → sep inp₁ = .ok (y, inp₂) →
      sepByLoop p sep (fuel + 1) acc inp inp_bc =
        sepByLoop p sep fuel (acc ++ [x]) inp₂ inp₁) ∧
    sep_by integer (char ";") 5 "1;-2;3;-4" = .finished ([1, -2, 3, -4], "") := by
  refine ⟨?_, ?_, ?_, rfl⟩
  · intro hp hc
    simp [sepByLoop, hp, hc]
  · intro hp hs hc
    simp [sepByLoop, hp, hs, hc]
  · intro hp hs
    simp [sepByLoop, hp, hs]

/-- Witness for C7 with `integer` and `char(";")`: a failing first `p`, a
failing `sep` after a successful `p`, and a full `sep`-then-`p` round. -/
theorem sep_by_stops_without_failing_witness :
    sepByLoop integer (char ";") (0 + 1) [] "x" "orig" = .finished ([], "orig") ∧
    sepByLoop integer (char ";") (0 + 1) [] "2" "q" = .finished ([] ++ [2], "") ∧
    sepByLoop integer (char ";") (0 + 1) [] "1;2" "bc" =
      sepByLoop integer (char ";") 0 ([] ++ [1]) "2" ";2" := by
  refine ⟨?_, ?_, ?_⟩
  · exact (sep_by_stops_without_failing integer (char ";") "x" "x" "x" "orig"
      0 ';' [] 0 (.Expected "x" "a number")).1 rfl rfl
  · exact (sep_by_stops_without_failing integer (char ";") "2" "" "" "q"
      2 ';' [] 0 (.Expected "" "one of \";\"")).2.1 rfl rfl rfl
  · exact (sep_by_stops_without_failing integer (char ";") "1;2" ";2" "2" "bc"
      1 ';' [] 0 (.Failure "")).2.2.1 rfl rfl

/-- C8: `some(p)` is exactly the composition "`p` then `many(p)`": if `p`
fails, `some(p)` propagates that same failure; if `p` succeeds with `x`,
`some(p)` returns the non-empty list with head `x` and tail equal to the
result of `many(p)` on the remaining input, with the same final input as
that `many(p)` run (an exception or non-termination of the `many(p)` run
is likewise that of `some(p)`). -/
theorem some_is_p_then_many (p : Parser α) (inp inp₁ inp₂ : String) (x : α)
    (rest : List α) (fuel : Nat) (e : Exc) :
    (p inp = .error e → Byteparsing.some p fuel inp = .raised e) ∧
    (p inp = .ok (x, inp₁) → manyLoop p fuel [] inp₁ = .finished (rest, inp₂) →
      Byteparsing.some p fuel inp = .finished (x :: rest, inp₂)) ∧
    (p inp = .ok (x, inp₁) → manyLoop p fuel [] inp₁ = .raised e →
      Byteparsing.some p fuel inp = .raised e) ∧
    (p inp = .ok (x, inp₁) → manyLoop p fuel [] inp₁ = .running →
      Byteparsing.some p fuel inp = .running) := by
  refine ⟨?_, ?_, ?_, ?_⟩
  · intro hp
    simp [Byteparsing.some, hp]
  · intro hp hm
    simp [Byteparsing.some, hp, hm]
  · intro hp hm
    simp [Byteparsing.some, hp, hm]
  · intro hp hm
    simp [Byteparsing.some, hp, hm]

/-- Witness for C8 with `char "a"`: failure propagation on `"b"` and the
cons of the first result on `"aab"`. -/
theorem some_is_p_then_many_witness :
    Byteparsing.some (char "a") 3 "b" = .raised (.Expected "b" "one of \"a\"") ∧
    Byteparsing.some (char "a") 3 "aab" = .finished (['a', 'a'], "b") := by
  constructor
  · exact (some_is_p_then_many (char "a") "b" "b" "b" 'a' [] 3
      (.Expected "b" "one of \"a\"")).1 rfl
  · exact (some_is_p_then_many (char "a") "aab" "ab" "b" 'a' ['a'] 3
      (.Failure "")).2.1 rfl rfl

/-- C10: the recovery combinators catch exactly the `Failure` class
hierarchy: `EndOfInput`, `Expected` and (via `Expected`) `ChoiceFailure`
are subclasses of `Failure`, so a `ChoiceFailure` raised by an exhausted
`choice` is recovered by an enclosing `optional`, `many` or `choice`,
while an exception whose class is not derived from `Failure` propagates
out of `optional`, `many` and `choice` unchanged. -/
theorem combinators_catch_exactly_failure (p q : Parser α)
    (ps : List (Parser α)) (default : Option α) (inp s : String)
    (fs : List Exc) (r : α × String) (e : Exc) (fuel : Nat) :
    (isSubclass .EndOfInputC .FailureC = true ∧
     isSubclass .ExpectedC .FailureC = true ∧
     isSubclass .ChoiceFailureC .ExpectedC = true ∧
     isSubclass .ChoiceFailureC .FailureC = true) ∧
    catches (.ChoiceFailure s fs) = true ∧
    (p inp = .error (.ChoiceFailure s fs) →
      optionalDefault p default inp = .ok (default, inp) ∧
      manyLoop p (fuel + 1) [] inp = .finished ([], inp) ∧
      (q inp = .ok r → choice [p, q] inp = .ok r)) ∧
    (p inp = .error e → catches e = false →
      optionalDefault p default inp = .error e ∧
      optional p inp = .error e ∧
      manyLoop p (fuel + 1) [] inp = .raised e ∧
      choice (p :: ps) inp = .error e) := by
  refine ⟨⟨rfl, rfl, rfl, rfl⟩, rfl, ?_, ?_⟩
  · intro hp
    refine ⟨?_, ?_, ?_⟩
    · simp [optionalDefault, hp, catches, Exc.cls, isSubclass, isSubclassAux, superclass]
    · simp [manyLoop, hp, catches, Exc.cls, isSubclass, isSubclassAux, superclass]
    · intro hq
      simp [choice, choiceGo, hp, hq, catches, Exc.cls, isSubclass, isSubclassAux, superclass]
  · intro hp hc
    refine ⟨?_, ?_, ?_, ?_⟩
    · simp [optionalDefault, hp, hc]
    · simp [optional, hp, hc]
    · simp [manyLoop, hp, hc]
    · simp [choice, choiceGo, hp, hc]

/-- Witness for C10: a `ChoiceFailure` raised by a sub-parser is recovered
by `optional`, while a `KeyError`-style exception passes through
`optional`, `many` and `choice` unchanged. -/
theorem combinators_catch_exactly_failure_witness :
    optionalDefault (fun i => .error (.ChoiceFailure i [])) (Option.some 4) "in" =
      .ok (Option.some 4, "in") ∧
    optionalDefault (fun _ => .error (.Other "KeyError" "k")) (Option.some 4) "in" =
      .error (.Other "KeyError" "k") ∧
    manyLoop (fun _ => (.error (.Other "KeyError" "k") : Except Exc (Nat × String)))
      (0 + 1) [] "in" = .raised (.Other "KeyError" "k") ∧
    choice [fun _ => (.error (.Other "KeyError" "k") : Except Exc (Nat × String))] "in" =
      .error (.Other "KeyError" "k") := by
  refine ⟨?_, ?_, ?_, ?_⟩
  · exact ((combinators_catch_exactly_failure (fun i => .error (.ChoiceFailure i []))
      (fun i => .error (.ChoiceFailure i [])) [] (Option.some 4) "in" "in" []
      (4, "in") (.ChoiceFailure "in" []) 0).2.2.1 rfl).1
  · exact ((combinators_catch_exactly_failure (fun _ => .error (.Other "KeyError" "k"))
      (fun _ => .error (.Other "KeyError" "k")) [] (Option.some 4) "in" "in" []
      (4, "in") (.Other "KeyError" "k") 0).2.2.2 rfl rfl).1
  · exact ((combinators_catch_exactly_failure (fun _ => .error (.Other "KeyError" "k"))
      (fun _ => .error (.Other "KeyError" "k")) [] (Option.some 4) "in" "in" []
      (4, "in") (.Other "KeyError" "k") 0).2.2.2 rfl rfl).2.2.1
  · exact ((combinators_catch_exactly_failure (fun _ => .error (.Other "KeyError" "k"))
      (fun _ => .error (.Other "KeyError" "k")) [] (Option.some 4) "in" "in" []
      (4, "in") (.Other "KeyError" "k") 0).2.2.2 rfl rfl).2.2.2

end Byteparsing
